import Mathlib

/-!
Shallow embedding of the round-based hypothesis/experiment scheduler of the
`zerozerocode` repository (`src/models.py`, `src/debugging.py`), together with
theorems settling the specification claims about it.

Python floats (`odds`, `cost`) are modelled as rationals `ℚ`; the external
collaborators (theory generator, experiment proposer, cost/odds estimator,
experiment runner) are modelled as function parameters, exactly the role the
specification assigns them.  `debug_issue` is embedded together with a ghost
execution trace (one `RoundTrace` per round, recording the issue handed to the
theory generator and, per planned experiment, whether it was skipped or
executed and with which result); the trace is used to state the temporal
claims and does not influence the computed result.
-/

namespace ZeroZeroCode

/-- models.py, class Issue: a free-text description. -/
structure Issue where
  description : String
deriving Repr, DecidableEq

/-- models.py, classes TheoryData/Theory: description, odds, and the issue
the theory was generated against. -/
structure Theory where
  description : String
  odds : ℚ
  issue : Issue
deriving Repr, DecidableEq

/-- models.py, TheoryData.key property: the identity key is the description. -/
def Theory.key (t : Theory) : String :=
  t.description

/-- models.py, classes ExperimentDesignData/ExperimentDesign. -/
structure ExperimentDesign where
  description : String
  theory : Theory
deriving Repr, DecidableEq

/-- models.py, classes ExperimentEstimateData/ExperimentEstimate (odds, cost,
and the estimated experiment). -/
structure ExperimentEstimate where
  odds : ℚ
  cost : ℚ
  experiment : ExperimentDesign
deriving Repr, DecidableEq

/-- models.py, classes ExperimentResultData/ExperimentResult.
`is_theory_correct` is the tri-state verdict (`bool | None` in the source). -/
structure ExperimentResult where
  is_theory_correct : Option Bool
  summary : String
  detailed_log : String
  experiment : ExperimentDesign
deriving Repr, DecidableEq

/-- models.py, class Failure: terminal output of an exhausted investigation. -/
structure Failure where
  issue : Issue
  summary : String
  lab_log : List ExperimentResult
deriving Repr, DecidableEq

/-- debugging.py line 21: `DEBUG_ROUNDS = 5` (the round budget; the spec calls
it `MAX_ROUNDS`). -/
def DEBUG_ROUNDS : Nat := 5

/-- debugging.py line 22: `ODDS_FACTOR = 1`. -/
def ODDS_FACTOR : ℚ := 1

/-- debugging.py line 23: `COST_FACTOR = 1`. -/
def COST_FACTOR : ℚ := 1

/-- models.py, `ExperimentEstimate.roi_estimate`, with the names `ODDS_FACTOR`
and `COST_FACTOR` resolved to the constants of debugging.py (the only place in
the repository where they are defined).  models.py itself never imports them;
`roiEstimateAsEvaluated` below models the name resolution exactly as written. -/
def ExperimentEstimate.roi_estimate (e : ExperimentEstimate) : ℚ :=
  ODDS_FACTOR * e.experiment.theory.odds * e.odds - COST_FACTOR * e.cost

/-- The module-level global namespace of models.py, restricted to numeric
bindings: models.py contains a single import (`from pydantic import BaseModel`)
and class definitions, so no name is bound to a number at module scope; in
particular neither `ODDS_FACTOR` nor `COST_FACTOR` is bound there. -/
def modelsNumericGlobals : String → Option ℚ :=
  fun _ => none

/-- Name lookup as performed when the body of a models.py method evaluates a
bare name: the defining module namespace is consulted and a missing name is a
`NameError`. -/
def evalModuleName (n : String) : Except String ℚ :=
  match modelsNumericGlobals n with
  | some v => Except.ok v
  | none => Except.error ("NameError: name " ++ n ++ " is not defined")

/-- models.py, `ExperimentEstimate.roi_estimate` exactly as written: the body
`ODDS_FACTOR * self.experiment.theory.odds * self.odds - COST_FACTOR * self.cost`
resolves `ODDS_FACTOR` first, then `COST_FACTOR`, against models.py
module globals (see `modelsNumericGlobals`); a failed lookup aborts evaluation
with a `NameError`. -/
def roiEstimateAsEvaluated (e : ExperimentEstimate) : Except String ℚ :=
  (evalModuleName "ODDS_FACTOR").bind (fun a =>
    (evalModuleName "COST_FACTOR").bind (fun c =>
      Except.ok (a * e.experiment.theory.odds * e.odds - c * e.cost)))

/-- debugging.py lines 94-95, `summarize_lab_log`. -/
def summarize_lab_log (results : List ExperimentResult) : String :=
  String.intercalate "\n\n" (results.map (fun r => r.summary))

/-- debugging.py line 81: `sorted(estimates, key=lambda e: e.roi_estimate)`.
Python `sorted` is the stable ascending sort by the key; `List.insertionSort`
with the reflexive relation `roi_estimate ≤ roi_estimate` is exactly that
(sorted: `List.sorted_insertionSort`; stable: equal-key elements keep their
input order because `orderedInsert` passes only strictly smaller keys). -/
def sortByRoi (estimates : List ExperimentEstimate) : List ExperimentEstimate :=
  estimates.insertionSort (fun a b => a.roi_estimate ≤ b.roi_estimate)

/-- debugging.py lines 82-86: the list comprehension
`[e.experiment for i, e in enumerate(sorted_estimates) if i < 3 or e.roi_estimate > 0]`,
written as an indexed loop over the sorted list, kept at the estimate level
(the `.experiment` projection is applied afterwards in
`choose_experiments_worth_running`). -/
def selectLoop : Nat → List ExperimentEstimate → List ExperimentEstimate
  | _, [] => []
  | i, e :: rest =>
    if i < 3 ∨ 0 < e.roi_estimate then e :: selectLoop (i + 1) rest
    else selectLoop (i + 1) rest

/-- debugging.py lines 77-86, `choose_experiments_worth_running`. -/
def choose_experiments_worth_running (estimates : List ExperimentEstimate) :
    List ExperimentDesign :=
  (selectLoop 0 (sortByRoi estimates)).map (fun e => e.experiment)

/-- The four external collaborator interfaces consumed by the core
(spec section 6); in the source these are `brainstorm_theories` (the LLM agent
of agents/brainstorm_theories), and the stub-backed `brainstorm_experiments`,
`estimate_cost_and_odds` and `run_experiment` of debugging.py. -/
structure Collaborators where
  brainstorm_theories : Issue → List Theory
  brainstorm_experiments : Theory → List ExperimentDesign
  estimate_cost_and_odds : ExperimentDesign → ExperimentEstimate
  run_experiment : ExperimentDesign → ExperimentResult

/-- debugging.py lines 31-37: one flat list of estimates across all theories
of the round, in theory order then experiment order. -/
def roundEstimates (C : Collaborators) (issue : Issue) : List ExperimentEstimate :=
  (C.brainstorm_theories issue).flatMap
    (fun t => (C.brainstorm_experiments t).map C.estimate_cost_and_odds)

/-- debugging.py lines 31-40: the ordered execution plan of one round. -/
def plannedExperiments (C : Collaborators) (issue : Issue) : List ExperimentDesign :=
  choose_experiments_worth_running (roundEstimates C issue)

/-- Ghost trace entry for one planned experiment: either skipped (theory
already falsified, debugging.py lines 43-47) or executed with its result. -/
inductive PlanStep where
  | skipped (e : ExperimentDesign)
  | executed (e : ExperimentDesign) (r : ExperimentResult)
deriving Repr, DecidableEq

/-- Outcome of walking one round's plan (debugging.py lines 41-53):
a confirming result if one occurred, the final falsified set, the extended
lab log, and the ghost list of steps. -/
structure PlanOutcome where
  confirmed : Option ExperimentResult
  falsified : List String
  lab_log : List ExperimentResult
  steps : List PlanStep
deriving Repr, DecidableEq

/-- debugging.py lines 42-53: walk the plan in order.  A planned experiment
whose theory key is in the falsified set is skipped (not executed, not
logged).  Otherwise it is executed; a `True` verdict ends the whole
investigation with that result; a non-`None` verdict (necessarily `False`
here) adds the theory key to the falsified set; every non-confirming result
is appended to the lab log. -/
def runPlan (run : ExperimentDesign → ExperimentResult) :
    List ExperimentDesign → List String → List ExperimentResult → PlanOutcome
  | [], falsified, lab_log => ⟨none, falsified, lab_log, []⟩
  | e :: rest, falsified, lab_log =>
    if e.theory.key ∈ falsified then
      let po := runPlan run rest falsified lab_log
      ⟨po.confirmed, po.falsified, po.lab_log, PlanStep.skipped e :: po.steps⟩
    else
      let result := run e
      if result.is_theory_correct = some true then
        ⟨some result, falsified, lab_log, [PlanStep.executed e result]⟩
      else
        let falsified2 :=
          if result.is_theory_correct.isSome then e.theory.key :: falsified
          else falsified
        let po := runPlan run rest falsified2 (lab_log ++ [result])
        ⟨po.confirmed, po.falsified, po.lab_log, PlanStep.executed e result :: po.steps⟩

/-- Ghost trace of one round: the issue passed to the theory generator and
the per-experiment steps. -/
structure RoundTrace where
  issue : Issue
  steps : List PlanStep
deriving Repr, DecidableEq

/-- Result of a run together with its ghost trace. -/
structure RunOutcome where
  result : ExperimentResult ⊕ Failure
  traces : List RoundTrace
deriving Repr, DecidableEq

/-- debugging.py lines 26-61, the body of `debug_issue`, as a fuel recursion
over the remaining rounds (`for i in range(DEBUG_ROUNDS)`).  The falsified set
handed to `runPlan` is `[]` in every round, mirroring line 41
(`falsified_theories = set()` inside the loop).  At the end of a
non-confirming round the summary is recomputed from the whole lab log and the
next issue is the original description, a blank line, and that summary
(lines 55-56); after the last round a `Failure` with the fixed banner is
returned (lines 57-61). -/
def debugLoop (C : Collaborators) (original : Issue) :
    Nat → Issue → List ExperimentResult → String → RunOutcome
  | 0, issue, lab_log, lab_log_summary =>
    ⟨Sum.inr ⟨issue, "Failed to debug issue.\n\n" ++ lab_log_summary, lab_log⟩, []⟩
  | n + 1, issue, lab_log, _ =>
    let po := runPlan C.run_experiment (plannedExperiments C issue) [] lab_log
    match po.confirmed with
    | some result => ⟨Sum.inl result, [⟨issue, po.steps⟩]⟩
    | none =>
      let lab_log_summary2 := summarize_lab_log po.lab_log
      let next := debugLoop C original n
        ⟨original.description ++ "\n\n" ++ lab_log_summary2⟩ po.lab_log lab_log_summary2
      ⟨next.result, ⟨issue, po.steps⟩ :: next.traces⟩

/-- debugging.py line 26, `debug_issue`: the single entry point. -/
def debug_issue (C : Collaborators) (issue : Issue) : ExperimentResult ⊕ Failure :=
  (debugLoop C issue DEBUG_ROUNDS issue [] "").result

/-- The ghost trace of `debug_issue`, one entry per started round. -/
def debug_issue_trace (C : Collaborators) (issue : Issue) : List RoundTrace :=
  (debugLoop C issue DEBUG_ROUNDS issue [] "").traces

/-- The results appended to the lab log by a list of steps: results of
executed, non-confirming experiments, in order (skips contribute nothing;
a confirming result is returned, never logged). -/
def loggedResults (steps : List PlanStep) : List ExperimentResult :=
  steps.filterMap (fun s =>
    match s with
    | PlanStep.skipped _ => none
    | PlanStep.executed _ r =>
      if r.is_theory_correct = some true then none else some r)

/-- The theory keys of executed steps with a definitive refutation
(`is_theory_correct = some false`), in execution order. -/
def refutedKeys (steps : List PlanStep) : List String :=
  steps.filterMap (fun s =>
    match s with
    | PlanStep.skipped _ => none
    | PlanStep.executed e r =>
      if r.is_theory_correct = some false then some e.theory.key else none)

/-- Theory key and verdict of each executed (non-skipped) step, in order. -/
def execKeyed (rt : RoundTrace) : List (String × Option Bool) :=
  rt.steps.filterMap (fun s =>
    match s with
    | PlanStep.skipped _ => none
    | PlanStep.executed e r => some (e.theory.key, r.is_theory_correct))

/-- The lab log accumulated through round `k` (rounds `0` to `k` inclusive)
of a trace. -/
def logThrough (tr : List RoundTrace) (k : Nat) : List ExperimentResult :=
  ((tr.take (k + 1)).map (fun rt => loggedResults rt.steps)).flatten

/-- debugging.py lines 64-69, the stub body of `brainstorm_experiments`. -/
def brainstorm_experiments_stub (t : Theory) : List ExperimentDesign :=
  [⟨"read the code", t⟩, ⟨"run it and see what happens", t⟩]

/-- debugging.py lines 72-74, the stub body of `estimate_cost_and_odds`:
odds 1, cost 0. -/
def estimate_cost_and_odds_stub (e : ExperimentDesign) : ExperimentEstimate :=
  ⟨1, 0, e⟩

/-- debugging.py lines 89-91, the stub body of `run_experiment`: an
inconclusive result with empty summary and log. -/
def run_experiment_stub (e : ExperimentDesign) : ExperimentResult :=
  ⟨none, "", "", e⟩

/-- A concrete issue used by witnesses and counterexamples. -/
def issueX : Issue :=
  ⟨"bug"⟩

/-- Deterministic collaborators: one theory per round (key `"T"`, odds 1),
one experiment per theory, estimate odds 1 / cost 0, and a runner that always
refutes (`is_theory_correct = False`). -/
def stubCollab : Collaborators where
  brainstorm_theories := fun i => [⟨"T", 1, i⟩]
  brainstorm_experiments := fun t => [⟨"probe", t⟩]
  estimate_cost_and_odds := fun e => ⟨1, 0, e⟩
  run_experiment := fun e => ⟨some false, "no", "log", e⟩

/-- Deterministic collaborators whose runner always confirms. -/
def confirmCollab : Collaborators where
  brainstorm_theories := fun i => [⟨"T", 1, i⟩]
  brainstorm_experiments := fun t => [⟨"probe", t⟩]
  estimate_cost_and_odds := fun e => ⟨1, 0, e⟩
  run_experiment := fun e => ⟨some true, "yes", "log", e⟩

/-- Deterministic collaborators whose theory generator returns no theories. -/
def emptyGenCollab : Collaborators where
  brainstorm_theories := fun _ => []
  brainstorm_experiments := brainstorm_experiments_stub
  estimate_cost_and_odds := estimate_cost_and_odds_stub
  run_experiment := run_experiment_stub

/-- Deterministic collaborators generating two distinct theories per round
(keys `"T1"` and `"T2"`), one experiment each, runner always refuting. -/
def twoTheoryCollab : Collaborators where
  brainstorm_theories := fun i => [⟨"T1", 1, i⟩, ⟨"T2", 1, i⟩]
  brainstorm_experiments := fun t => [⟨"p", t⟩]
  estimate_cost_and_odds := fun e => ⟨1, 0, e⟩
  run_experiment := fun e => ⟨some false, "no", "log", e⟩

/-- Concrete theory for the selector witnesses. -/
def theoryW : Theory :=
  ⟨"W", 1, issueX⟩

/-- Concrete estimates with rois 1, -1, -2 and 1/2 respectively. -/
def estA : ExperimentEstimate :=
  ⟨1, 0, ⟨"A", theoryW⟩⟩

def estB : ExperimentEstimate :=
  ⟨1, 2, ⟨"B", theoryW⟩⟩

def estC : ExperimentEstimate :=
  ⟨1, 3, ⟨"C", theoryW⟩⟩

def estD : ExperimentEstimate :=
  ⟨1, 1/2, ⟨"D", theoryW⟩⟩

def estListC3 : List ExperimentEstimate :=
  [estA, estB, estC, estD]

/-- Concrete values of the single confirming round of `confirmCollab`. -/
def theoryTC : Theory :=
  ⟨"T", 1, issueX⟩

def designTC : ExperimentDesign :=
  ⟨"probe", theoryTC⟩

def resultTC : ExperimentResult :=
  ⟨some true, "yes", "log", designTC⟩

def rt0C : RoundTrace :=
  ⟨issueX, [PlanStep.executed designTC resultTC]⟩

/-- Concrete values of round 1 (the second round) of `stubCollab`. -/
def issueR1 : Issue :=
  ⟨"bug\n\nno"⟩

def designR1 : ExperimentDesign :=
  ⟨"probe", ⟨"T", 1, issueR1⟩⟩

def rt1X : RoundTrace :=
  ⟨issueR1, [PlanStep.executed designR1 ⟨some false, "no", "log", designR1⟩]⟩

/-- Concrete values of round 0 of `twoTheoryCollab`. -/
def designT1 : ExperimentDesign :=
  ⟨"p", ⟨"T1", 1, issueX⟩⟩

def designT2 : ExperimentDesign :=
  ⟨"p", ⟨"T2", 1, issueX⟩⟩

def resultT1 : ExperimentResult :=
  ⟨some false, "no", "log", designT1⟩

def resultT2 : ExperimentResult :=
  ⟨some false, "no", "log", designT2⟩

def rt0TT : RoundTrace :=
  ⟨issueX, [PlanStep.executed designT1 resultT1, PlanStep.executed designT2 resultT2]⟩

/-- A runner that always refutes, and a two-experiment plan on one theory
with key `"A"`, for the round-mechanics witness. -/
def runFalse (e : ExperimentDesign) : ExperimentResult :=
  ⟨some false, "no", "log", e⟩

def designA1 : ExperimentDesign :=
  ⟨"p1", ⟨"A", 1, issueX⟩⟩

def designA2 : ExperimentDesign :=
  ⟨"p2", ⟨"A", 1, issueX⟩⟩

def planA : List ExperimentDesign :=
  [designA1, designA2]

instance : IsTotal ExperimentEstimate (fun a b => a.roi_estimate ≤ b.roi_estimate) :=
  ⟨fun a b => le_total a.roi_estimate b.roi_estimate⟩

instance : IsTrans ExperimentEstimate (fun a b => a.roi_estimate ≤ b.roi_estimate) :=
  ⟨fun _ _ _ h1 h2 => le_trans h1 h2⟩

theorem sortByRoi_perm (l : List ExperimentEstimate) : List.Perm (sortByRoi l) l :=
  List.perm_insertionSort _ l

theorem sortByRoi_sorted (l : List ExperimentEstimate) :
    List.Sorted (fun a b => a.roi_estimate ≤ b.roi_estimate) (sortByRoi l) :=
  List.sorted_insertionSort _ l

theorem sortByRoi_length (l : List ExperimentEstimate) :
    (sortByRoi l).length = l.length :=
  (sortByRoi_perm l).length_eq

/-- Stability of the sort: for each roi value, the sorted list restricted to
estimates with that roi is exactly the input list so restricted, in input
order. -/
theorem sortByRoi_filter_roi (l : List ExperimentEstimate) (q : ℚ) :
    (sortByRoi l).filter (fun e => decide (e.roi_estimate = q)) =
      l.filter (fun e => decide (e.roi_estimate = q)) := by
  set p : ExperimentEstimate → Bool := fun e => decide (e.roi_estimate = q) with hp
  have hmemq : ∀ e ∈ l.filter p, e.roi_estimate = q := by
    intro e he
    have := (List.mem_filter.mp he).2
    simpa [hp] using this
  have hpair : (l.filter p).Pairwise (fun a b => a.roi_estimate ≤ b.roi_estimate) := by
    refine List.pairwise_of_forall_mem_list ?_
    intro a ha b hb
    rw [hmemq a ha, hmemq b hb]
  have hsub : List.Sublist (l.filter p) (sortByRoi l) :=
    List.sublist_insertionSort hpair (List.filter_sublist l)
  have hself : (l.filter p).filter p = l.filter p := by
    refine List.filter_eq_self.mpr ?_
    intro a ha
    exact (List.mem_filter.mp ha).2
  have hsub2 : List.Sublist (l.filter p) ((sortByRoi l).filter p) := by
    have := hsub.filter p
    rwa [hself] at this
  have hperm : ((sortByRoi l).filter p).Perm (l.filter p) :=
    (sortByRoi_perm l).filter p
  exact (hsub2.eq_of_length hperm.length_eq.symm).symm

theorem selectLoop_ge (l : List ExperimentEstimate) :
    ∀ i, 3 ≤ i → selectLoop i l = l.filter (fun e => decide (0 < e.roi_estimate)) := by
  induction l with
  | nil => intro i _; rfl
  | cons e rest ih =>
    intro i hi
    by_cases hpos : 0 < e.roi_estimate
    · have hcond : i < 3 ∨ 0 < e.roi_estimate := Or.inr hpos
      simp only [selectLoop, if_pos hcond, ih (i + 1) (Nat.le_succ_of_le hi)]
      rw [List.filter_cons_of_pos (by simpa using hpos)]
    · have hcond : ¬(i < 3 ∨ 0 < e.roi_estimate) := by
        rintro (h | h)
        · omega
        · exact hpos h
      simp only [selectLoop, if_neg hcond, ih (i + 1) (Nat.le_succ_of_le hi)]
      rw [List.filter_cons_of_neg (by simpa using hpos)]

theorem selectLoop_lt (l : List ExperimentEstimate) :
    ∀ i, i < 3 →
      selectLoop i l =
        l.take (3 - i) ++ (l.drop (3 - i)).filter (fun e => decide (0 < e.roi_estimate)) := by
  induction l with
  | nil => intro i _; simp [selectLoop]
  | cons e rest ih =>
    intro i hi
    have hcond : i < 3 ∨ 0 < e.roi_estimate := Or.inl hi
    have h3i : 3 - i = (3 - (i + 1)) + 1 := by omega
    by_cases hi1 : i + 1 < 3
    · simp only [selectLoop, if_pos hcond, ih (i + 1) hi1, h3i, List.take_succ_cons,
        List.drop_succ_cons, List.cons_append]
    · have hi2 : i = 2 := by omega
      subst hi2
      simp only [selectLoop, if_pos hcond, selectLoop_ge rest 3 le_rfl]
      rfl

/-- debugging.py lines 82-86: the selected estimates are the first three of
the roi-sorted list together with every later estimate with strictly
positive roi. -/
theorem selectLoop_zero (l : List ExperimentEstimate) :
    selectLoop 0 l = l.take 3 ++ (l.drop 3).filter (fun e => decide (0 < e.roi_estimate)) :=
  selectLoop_lt l 0 (by omega)

theorem selectLoop_sublist (l : List ExperimentEstimate) :
    ∀ i, List.Sublist (selectLoop i l) l := by
  induction l with
  | nil => intro i; simp [selectLoop]
  | cons e rest ih =>
    intro i
    by_cases hcond : i < 3 ∨ 0 < e.roi_estimate
    · simp only [selectLoop, if_pos hcond]
      exact (ih (i + 1)).cons₂ e
    · simp only [selectLoop, if_neg hcond]
      exact (ih (i + 1)).cons e

theorem runPlan_nil (run : ExperimentDesign → ExperimentResult)
    (f : List String) (log : List ExperimentResult) :
    runPlan run [] f log = ⟨none, f, log, []⟩ :=
  rfl

theorem runPlan_cons_skip (run : ExperimentDesign → ExperimentResult)
    (e : ExperimentDesign) (rest : List ExperimentDesign)
    (f : List String) (log : List ExperimentResult) (h : e.theory.key ∈ f) :
    runPlan run (e :: rest) f log =
      ⟨(runPlan run rest f log).confirmed, (runPlan run rest f log).falsified,
        (runPlan run rest f log).lab_log,
        PlanStep.skipped e :: (runPlan run rest f log).steps⟩ := by
  simp [runPlan, if_pos h]

theorem runPlan_cons_confirm (run : ExperimentDesign → ExperimentResult)
    (e : ExperimentDesign) (rest : List ExperimentDesign)
    (f : List String) (log : List ExperimentResult) (h : e.theory.key ∉ f)
    (h2 : (run e).is_theory_correct = some true) :
    runPlan run (e :: rest) f log =
      ⟨some (run e), f, log, [PlanStep.executed e (run e)]⟩ := by
  simp [runPlan, if_neg h, if_pos h2]

theorem runPlan_cons_exec (run : ExperimentDesign → ExperimentResult)
    (e : ExperimentDesign) (rest : List ExperimentDesign)
    (f : List String) (log : List ExperimentResult) (h : e.theory.key ∉ f)
    (h2 : ¬(run e).is_theory_correct = some true) :
    runPlan run (e :: rest) f log =
      ⟨(runPlan run rest
          (if (run e).is_theory_correct.isSome then e.theory.key :: f else f)
          (log ++ [run e])).confirmed,
        (runPlan run rest
          (if (run e).is_theory_correct.isSome then e.theory.key :: f else f)
          (log ++ [run e])).falsified,
        (runPlan run rest
          (if (run e).is_theory_correct.isSome then e.theory.key :: f else f)
          (log ++ [run e])).lab_log,
        PlanStep.executed e (run e) ::
          (runPlan run rest
            (if (run e).is_theory_correct.isSome then e.theory.key :: f else f)
            (log ++ [run e])).steps⟩ := by
  simp [runPlan, if_neg h, if_neg h2]

theorem runPlan_cons_exec_none (run : ExperimentDesign → ExperimentResult)
    (e : ExperimentDesign) (rest : List ExperimentDesign)
    (f : List String) (log : List ExperimentResult) (h : e.theory.key ∉ f)
    (h2 : (run e).is_theory_correct = none) :
    runPlan run (e :: rest) f log =
      ⟨(runPlan run rest f (log ++ [run e])).confirmed,
        (runPlan run rest f (log ++ [run e])).falsified,
        (runPlan run rest f (log ++ [run e])).lab_log,
        PlanStep.executed e (run e) :: (runPlan run rest f (log ++ [run e])).steps⟩ := by
  simp [runPlan, if_neg h, h2]

theorem runPlan_cons_exec_false (run : ExperimentDesign → ExperimentResult)
    (e : ExperimentDesign) (rest : List ExperimentDesign)
    (f : List String) (log : List ExperimentResult) (h : e.theory.key ∉ f)
    (h2 : (run e).is_theory_correct = some false) :
    runPlan run (e :: rest) f log =
      ⟨(runPlan run rest (e.theory.key :: f) (log ++ [run e])).confirmed,
        (runPlan run rest (e.theory.key :: f) (log ++ [run e])).falsified,
        (runPlan run rest (e.theory.key :: f) (log ++ [run e])).lab_log,
        PlanStep.executed e (run e) ::
          (runPlan run rest (e.theory.key :: f) (log ++ [run e])).steps⟩ := by
  simp [runPlan, if_neg h, h2]

/-- A theory key in the falsified set at entry is never executed by the plan
walk: every plan entry with that key takes the skip branch, and the set only
grows. -/
theorem runPlan_falsified_not_executed (run : ExperimentDesign → ExperimentResult)
    (plan : List ExperimentDesign) :
    ∀ (f : List String) (log : List ExperimentResult) (d : String), d ∈ f →
      ∀ (j : Nat) (e : ExperimentDesign) (r : ExperimentResult),
        ((runPlan run plan f log).steps)[j]? = some (PlanStep.executed e r) →
        e.theory.key ≠ d := by
  induction plan with
  | nil =>
    intro f log d hd j e r hj
    simp [runPlan_nil] at hj
  | cons e0 rest ih =>
    intro f log d hd j e r hj
    by_cases hin : e0.theory.key ∈ f
    · rw [runPlan_cons_skip run e0 rest f log hin] at hj
      cases j with
      | zero => simp at hj
      | succ m => exact ih f log d hd m e r (by simpa using hj)
    · by_cases hc : (run e0).is_theory_correct = some true
      · rw [runPlan_cons_confirm run e0 rest f log hin hc] at hj
        cases j with
        | zero =>
          simp at hj
          intro hk
          exact hin (hj.1 ▸ hk ▸ hd)
        | succ m => simp at hj
      · rw [runPlan_cons_exec run e0 rest f log hin hc] at hj
        cases j with
        | zero =>
          simp at hj
          intro hk
          exact hin (hj.1 ▸ hk ▸ hd)
        | succ m =>
          refine ih _ _ d ?_ m e r (by simpa using hj)
          by_cases hs : (run e0).is_theory_correct.isSome
          · simp only [if_pos hs]
            exact List.mem_cons_of_mem _ hd
          · simpa [if_neg hs] using hd

/-- Within one plan walk, a definitive refutation at step `i` prevents every
later step from executing an experiment of the refuted theory key. -/
theorem runPlan_refute_blocks_later (run : ExperimentDesign → ExperimentResult)
    (plan : List ExperimentDesign) :
    ∀ (f : List String) (log : List ExperimentResult)
      (i j : Nat) (e e2 : ExperimentDesign) (r r2 : ExperimentResult), i < j →
      ((runPlan run plan f log).steps)[i]? = some (PlanStep.executed e r) →
      r.is_theory_correct = some false →
      ((runPlan run plan f log).steps)[j]? = some (PlanStep.executed e2 r2) →
      e2.theory.key ≠ e.theory.key := by
  induction plan with
  | nil =>
    intro f log i j e e2 r r2 hij hi hr hj
    simp [runPlan_nil] at hi
  | cons e0 rest ih =>
    intro f log i j e e2 r r2 hij hi hr hj
    by_cases hin : e0.theory.key ∈ f
    · rw [runPlan_cons_skip run e0 rest f log hin] at hi hj
      cases i with
      | zero => simp at hi
      | succ m =>
        cases j with
        | zero => omega
        | succ m2 =>
          exact ih f log m m2 e e2 r r2 (by omega) (by simpa using hi) hr (by simpa using hj)
    · by_cases hc : (run e0).is_theory_correct = some true
      · rw [runPlan_cons_confirm run e0 rest f log hin hc] at hi hj
        cases j with
        | zero => omega
        | succ m2 => simp at hj
      · rw [runPlan_cons_exec run e0 rest f log hin hc] at hi hj
        cases i with
        | zero =>
          simp at hi
          cases j with
          | zero => omega
          | succ m2 =>
            have hfs : (run e0).is_theory_correct.isSome := by
              rw [hi.2, hr]
              rfl
            have hd : e.theory.key ∈
                (if (run e0).is_theory_correct.isSome then e0.theory.key :: f else f) := by
              rw [if_pos hfs, hi.1]
              exact List.mem_cons_self _ _
            exact runPlan_falsified_not_executed run rest _ _ e.theory.key hd m2 e2 r2
              (by simpa using hj)
        | succ m =>
          cases j with
          | zero => omega
          | succ m2 =>
            exact ih _ _ m m2 e e2 r r2 (by omega) (by simpa using hi) hr (by simpa using hj)

/-- The plan walk extends the lab log by exactly the results of executed,
non-confirming steps, in order: skipped experiments are never appended and a
confirming result is returned rather than logged. -/
theorem runPlan_lab_log_eq (run : ExperimentDesign → ExperimentResult)
    (plan : List ExperimentDesign) :
    ∀ (f : List String) (log : List ExperimentResult),
      (runPlan run plan f log).lab_log =
        log ++ loggedResults (runPlan run plan f log).steps := by
  induction plan with
  | nil => intro f log; simp [runPlan_nil, loggedResults]
  | cons e0 rest ih =>
    intro f log
    by_cases hin : e0.theory.key ∈ f
    · rw [runPlan_cons_skip run e0 rest f log hin]
      simp only [loggedResults, List.filterMap_cons]
      exact ih f log
    · by_cases hc : (run e0).is_theory_correct = some true
      · rw [runPlan_cons_confirm run e0 rest f log hin hc]
        simp [loggedResults, hc]
      · rw [runPlan_cons_exec run e0 rest f log hin hc]
        simp only [loggedResults, List.filterMap_cons, if_neg hc]
        rw [ih]
        simp [loggedResults]

/-- The final falsified set of a plan walk is the entry set extended by the
keys of the refuted executed steps (most recent first). -/
theorem runPlan_falsified_eq (run : ExperimentDesign → ExperimentResult)
    (plan : List ExperimentDesign) :
    ∀ (f : List String) (log : List ExperimentResult),
      (runPlan run plan f log).falsified =
        (refutedKeys (runPlan run plan f log).steps).reverse ++ f := by
  induction plan with
  | nil => intro f log; simp [runPlan_nil, refutedKeys]
  | cons e0 rest ih =>
    intro f log
    by_cases hin : e0.theory.key ∈ f
    · rw [runPlan_cons_skip run e0 rest f log hin]
      simp only [refutedKeys, List.filterMap_cons]
      exact ih f log
    · rcases ho : (run e0).is_theory_correct with _ | b
      · rw [runPlan_cons_exec_none run e0 rest f log hin ho]
        simp only [refutedKeys, List.filterMap_cons, ho]
        simpa [refutedKeys] using ih f (log ++ [run e0])
      · cases b with
        | false =>
          rw [runPlan_cons_exec_false run e0 rest f log hin ho]
          have h5 := ih (e0.theory.key :: f) (log ++ [run e0])
          simp only [refutedKeys] at h5
          simp [refutedKeys, List.filterMap_cons, ho, h5, List.reverse_cons]
        | true =>
          rw [runPlan_cons_confirm run e0 rest f log hin ho]
          simp [refutedKeys, ho]

/-- If the plan walk did not confirm, no executed step confirmed. -/
theorem runPlan_none_no_confirm (run : ExperimentDesign → ExperimentResult)
    (plan : List ExperimentDesign) :
    ∀ (f : List String) (log : List ExperimentResult),
      (runPlan run plan f log).confirmed = none →
      ∀ (e : ExperimentDesign) (r : ExperimentResult),
        PlanStep.executed e r ∈ (runPlan run plan f log).steps →
        r.is_theory_correct ≠ some true := by
  induction plan with
  | nil =>
    intro f log _ e r hmem
    simp [runPlan_nil] at hmem
  | cons e0 rest ih =>
    intro f log hnone e r hmem
    by_cases hin : e0.theory.key ∈ f
    · rw [runPlan_cons_skip run e0 rest f log hin] at hnone hmem
      simp only [List.mem_cons] at hmem
      rcases hmem with h | h
      · exact absurd h (by simp)
      · exact ih f log hnone e r h
    · by_cases hc : (run e0).is_theory_correct = some true
      · rw [runPlan_cons_confirm run e0 rest f log hin hc] at hnone
        simp at hnone
      · rw [runPlan_cons_exec run e0 rest f log hin hc] at hnone hmem
        simp only [List.mem_cons] at hmem
        rcases hmem with h | h
        · cases h
          exact hc
        · exact ih _ _ hnone e r h

/-- A confirming executed step ends the plan walk with that result. -/
theorem runPlan_confirm_shape (run : ExperimentDesign → ExperimentResult)
    (plan : List ExperimentDesign) :
    ∀ (f : List String) (log : List ExperimentResult) (r : ExperimentResult),
      (runPlan run plan f log).confirmed = some r →
      ∃ (pre : List PlanStep) (e : ExperimentDesign),
        (runPlan run plan f log).steps = pre ++ [PlanStep.executed e r] ∧
        r.is_theory_correct = some true ∧
        ∀ (e2 : ExperimentDesign) (r2 : ExperimentResult),
          PlanStep.executed e2 r2 ∈ pre → r2.is_theory_correct ≠ some true := by
  induction plan with
  | nil =>
    intro f log r hr
    simp [runPlan_nil] at hr
  | cons e0 rest ih =>
    intro f log r hr
    by_cases hin : e0.theory.key ∈ f
    · rw [runPlan_cons_skip run e0 rest f log hin] at hr ⊢
      obtain ⟨pre, e, hsteps, htrue, hpre⟩ := ih f log r hr
      refine ⟨PlanStep.skipped e0 :: pre, e, ?_, htrue, ?_⟩
      · simp [hsteps]
      · intro e2 r2 hmem
        simp only [List.mem_cons] at hmem
        rcases hmem with h | h
        · exact absurd h (by simp)
        · exact hpre e2 r2 h
    · by_cases hc : (run e0).is_theory_correct = some true
      · rw [runPlan_cons_confirm run e0 rest f log hin hc] at hr ⊢
        simp only [Option.some.injEq] at hr
        subst hr
        exact ⟨[], e0, by simp, hc, by simp⟩
      · rw [runPlan_cons_exec run e0 rest f log hin hc] at hr ⊢
        obtain ⟨pre, e, hsteps, htrue, hpre⟩ := ih _ _ r hr
        refine ⟨PlanStep.executed e0 (run e0) :: pre, e, ?_, htrue, ?_⟩
        · simp [hsteps]
        · intro e2 r2 hmem
          simp only [List.mem_cons] at hmem
          rcases hmem with h | h
          · cases h
            exact hc
          · exact hpre e2 r2 h

/-- If the runner never confirms, the plan walk never confirms. -/
theorem runPlan_never_confirm (run : ExperimentDesign → ExperimentResult)
    (hrun : ∀ e, (run e).is_theory_correct ≠ some true)
    (plan : List ExperimentDesign) :
    ∀ (f : List String) (log : List ExperimentResult),
      (runPlan run plan f log).confirmed = none := by
  induction plan with
  | nil => intro f log; rfl
  | cons e0 rest ih =>
    intro f log
    by_cases hin : e0.theory.key ∈ f
    · rw [runPlan_cons_skip run e0 rest f log hin]
      exact ih f log
    · rw [runPlan_cons_exec run e0 rest f log hin (hrun e0)]
      exact ih _ _

/-- A skipped step is explained by an earlier in-plan refutation of the same
theory key, or by the key being falsified at entry. -/
theorem runPlan_skipped_char (run : ExperimentDesign → ExperimentResult)
    (plan : List ExperimentDesign) :
    ∀ (f : List String) (log : List ExperimentResult) (j : Nat) (e : ExperimentDesign),
      ((runPlan run plan f log).steps)[j]? = some (PlanStep.skipped e) →
      e.theory.key ∈ f ∨
        ∃ i, i < j ∧ ∃ (e2 : ExperimentDesign) (r2 : ExperimentResult),
          ((runPlan run plan f log).steps)[i]? = some (PlanStep.executed e2 r2) ∧
          e2.theory.key = e.theory.key ∧ r2.is_theory_correct = some false := by
  induction plan with
  | nil =>
    intro f log j e hj
    simp [runPlan_nil] at hj
  | cons e0 rest ih =>
    intro f log j e hj
    by_cases hin : e0.theory.key ∈ f
    · rw [runPlan_cons_skip run e0 rest f log hin] at hj ⊢
      cases j with
      | zero =>
        simp at hj
        subst hj
        exact Or.inl hin
      | succ m =>
        rcases ih f log m e (by simpa using hj) with h | ⟨i, hi, e2, r2, hgi, hk, hf⟩
        · exact Or.inl h
        · exact Or.inr ⟨i + 1, by omega, e2, r2, by simpa using hgi, hk, hf⟩
    · by_cases hc : (run e0).is_theory_correct = some true
      · rw [runPlan_cons_confirm run e0 rest f log hin hc] at hj
        cases j with
        | zero => simp at hj
        | succ m => simp at hj
      · rw [runPlan_cons_exec run e0 rest f log hin hc] at hj ⊢
        cases j with
        | zero => simp at hj
        | succ m =>
          rcases ih _ _ m e (by simpa using hj) with h | ⟨i, hi, e2, r2, hgi, hk, hf⟩
          · by_cases hs : (run e0).is_theory_correct.isSome
            · rw [if_pos hs] at h
              simp only [List.mem_cons] at h
              rcases h with h | h
              · refine Or.inr ⟨0, by omega, e0, run e0, by simp, h.symm, ?_⟩
                rcases ho : (run e0).is_theory_correct with _ | b
                · rw [ho] at hs; simp at hs
                · cases b
                  · rfl
                  · exact absurd ho hc
              · exact Or.inl h
            · rw [if_neg hs] at h
              exact Or.inl h
          · exact Or.inr ⟨i + 1, by omega, e2, r2, by simpa using hgi, hk, hf⟩

theorem debugLoop_zero (C : Collaborators) (orig issue : Issue)
    (log : List ExperimentResult) (s : String) :
    debugLoop C orig 0 issue log s =
      ⟨Sum.inr ⟨issue, "Failed to debug issue.\n\n" ++ s, log⟩, []⟩ :=
  rfl

theorem debugLoop_succ_confirm (C : Collaborators) (orig issue : Issue) (n : Nat)
    (log : List ExperimentResult) (s : String) (r : ExperimentResult)
    (h : (runPlan C.run_experiment (plannedExperiments C issue) [] log).confirmed = some r) :
    debugLoop C orig (n + 1) issue log s =
      ⟨Sum.inl r,
        [⟨issue, (runPlan C.run_experiment (plannedExperiments C issue) [] log).steps⟩]⟩ := by
  simp only [debugLoop, h]

theorem debugLoop_succ_none (C : Collaborators) (orig issue : Issue) (n : Nat)
    (log : List ExperimentResult) (s : String)
    (h : (runPlan C.run_experiment (plannedExperiments C issue) [] log).confirmed = none) :
    debugLoop C orig (n + 1) issue log s =
      ⟨(debugLoop C orig n
          ⟨orig.description ++ "\n\n" ++
            summarize_lab_log (runPlan C.run_experiment (plannedExperiments C issue) [] log).lab_log⟩
          (runPlan C.run_experiment (plannedExperiments C issue) [] log).lab_log
          (summarize_lab_log
            (runPlan C.run_experiment (plannedExperiments C issue) [] log).lab_log)).result,
        ⟨issue, (runPlan C.run_experiment (plannedExperiments C issue) [] log).steps⟩ ::
          (debugLoop C orig n
            ⟨orig.description ++ "\n\n" ++
              summarize_lab_log (runPlan C.run_experiment (plannedExperiments C issue) [] log).lab_log⟩
            (runPlan C.run_experiment (plannedExperiments C issue) [] log).lab_log
            (summarize_lab_log
              (runPlan C.run_experiment (plannedExperiments C issue) [] log).lab_log)).traces⟩ := by
  simp only [debugLoop, h]

/-- The first round of a run with positive fuel hands the current issue to
the theory generator. -/
theorem debugLoop_head_issue (C : Collaborators) (orig : Issue) :
    ∀ (n : Nat) (issue : Issue) (log : List ExperimentResult) (s : String) (rt : RoundTrace),
      ((debugLoop C orig n issue log s).traces)[0]? = some rt → rt.issue = issue := by
  intro n issue log s rt h
  cases n with
  | zero => simp [debugLoop_zero] at h
  | succ m =>
    rcases hc : (runPlan C.run_experiment (plannedExperiments C issue) [] log).confirmed
      with _ | r
    · rw [debugLoop_succ_none C orig issue m log s hc] at h
      simp at h
      rw [← h]
    · rw [debugLoop_succ_confirm C orig issue m log s r hc] at h
      simp at h
      rw [← h]

/-- Every round of a run with positive fuel exists and its steps come from a
plan walk over the plan of its own issue, started with an empty falsified
set (debugging.py line 41). -/
theorem debugLoop_steps_runPlan (C : Collaborators) (orig : Issue) :
    ∀ (n : Nat) (issue : Issue) (log : List ExperimentResult) (s : String)
      (k : Nat) (rt : RoundTrace),
      ((debugLoop C orig n issue log s).traces)[k]? = some rt →
      ∃ log2, rt.steps =
        (runPlan C.run_experiment (plannedExperiments C rt.issue) [] log2).steps := by
  intro n
  induction n with
  | zero =>
    intro issue log s k rt h
    simp [debugLoop_zero] at h
  | succ m ih =>
    intro issue log s k rt h
    rcases hc : (runPlan C.run_experiment (plannedExperiments C issue) [] log).confirmed
      with _ | r
    · rw [debugLoop_succ_none C orig issue m log s hc] at h
      cases k with
      | zero =>
        simp at h
        exact ⟨log, by rw [← h]⟩
      | succ k2 => exact ih _ _ _ k2 rt (by simpa using h)
    · rw [debugLoop_succ_confirm C orig issue m log s r hc] at h
      cases k with
      | zero =>
        simp at h
        exact ⟨log, by rw [← h]⟩
      | succ k2 => simp at h

/-- If the runner never confirms, a run with fuel `n` performs exactly `n`
rounds and fails, and its final lab log is the initial log extended by each
round's logged results in order. -/
theorem debugLoop_never_confirm (C : Collaborators) (orig : Issue)
    (hrun : ∀ e, (C.run_experiment e).is_theory_correct ≠ some true) :
    ∀ (n : Nat) (issue : Issue) (log : List ExperimentResult) (s : String),
      ∃ fl : Failure,
        (debugLoop C orig n issue log s).result = Sum.inr fl ∧
        (debugLoop C orig n issue log s).traces.length = n ∧
        fl.lab_log = log ++
          ((debugLoop C orig n issue log s).traces.map
            (fun rt => loggedResults rt.steps)).flatten := by
  intro n
  induction n with
  | zero =>
    intro issue log s
    exact ⟨⟨issue, "Failed to debug issue.\n\n" ++ s, log⟩, rfl, rfl, by simp [debugLoop_zero]⟩
  | succ m ih =>
    intro issue log s
    have hc := runPlan_never_confirm C.run_experiment hrun (plannedExperiments C issue) [] log
    rw [debugLoop_succ_none C orig issue m log s hc]
    obtain ⟨fl, h1, h2, h3⟩ := ih
      ⟨orig.description ++ "\n\n" ++
        summarize_lab_log (runPlan C.run_experiment (plannedExperiments C issue) [] log).lab_log⟩
      (runPlan C.run_experiment (plannedExperiments C issue) [] log).lab_log
      (summarize_lab_log (runPlan C.run_experiment (plannedExperiments C issue) [] log).lab_log)
    refine ⟨fl, h1, by simp [h2], ?_⟩
    rw [h3, runPlan_lab_log_eq]
    simp [List.append_assoc]

/-- The issue of round `k + 1` is the original description, a blank line, and
the summary of the lab log accumulated through round `k`. -/
theorem debugLoop_issue_desc (C : Collaborators) (orig : Issue) :
    ∀ (n : Nat) (issue : Issue) (log : List ExperimentResult) (s : String)
      (k : Nat) (rt : RoundTrace),
      ((debugLoop C orig n issue log s).traces)[k + 1]? = some rt →
      rt.issue.description = orig.description ++ "\n\n" ++
        summarize_lab_log (log ++
          (((debugLoop C orig n issue log s).traces.take (k + 1)).map
            (fun t => loggedResults t.steps)).flatten) := by
  intro n
  induction n with
  | zero =>
    intro issue log s k rt h
    simp [debugLoop_zero] at h
  | succ m ih =>
    intro issue log s k rt h
    rcases hc : (runPlan C.run_experiment (plannedExperiments C issue) [] log).confirmed
      with _ | r
    · rw [debugLoop_succ_none C orig issue m log s hc] at h ⊢
      cases k with
      | zero =>
        have hissue := debugLoop_head_issue C orig m _ _ _ rt (by simpa using h)
        rw [hissue]
        simp only [List.take_succ_cons, List.take_zero, List.map_cons, List.map_nil,
          List.flatten_cons, List.flatten_nil, List.append_nil]
        rw [← runPlan_lab_log_eq]
      | succ k2 =>
        have hrec := ih _ _ _ k2 rt (by simpa using h)
        rw [hrec]
        simp only [List.take_succ_cons, List.map_cons, List.flatten_cons]
        rw [runPlan_lab_log_eq, List.append_assoc]
    · rw [debugLoop_succ_confirm C orig issue m log s r hc] at h
      cases k with
      | zero => simp at h
      | succ k2 => simp at h

/-- A confirming executed step in the trace determines the whole run: it is
the last step of the last round and its result is the run's output. -/
theorem debugLoop_confirm_shape (C : Collaborators) (orig : Issue) :
    ∀ (n : Nat) (issue : Issue) (log : List ExperimentResult) (s : String)
      (k : Nat) (rt : RoundTrace) (i : Nat) (e : ExperimentDesign) (r : ExperimentResult),
      ((debugLoop C orig n issue log s).traces)[k]? = some rt →
      (rt.steps)[i]? = some (PlanStep.executed e r) →
      r.is_theory_correct = some true →
      (debugLoop C orig n issue log s).result = Sum.inl r ∧
      i = rt.steps.length - 1 ∧
      k = (debugLoop C orig n issue log s).traces.length - 1 := by
  intro n
  induction n with
  | zero =>
    intro issue log s k rt i e r hk hi hr
    simp [debugLoop_zero] at hk
  | succ m ih =>
    intro issue log s k rt i e r hk hi hr
    rcases hc : (runPlan C.run_experiment (plannedExperiments C issue) [] log).confirmed
      with _ | r0
    · rw [debugLoop_succ_none C orig issue m log s hc] at hk ⊢
      cases k with
      | zero =>
        simp only [List.getElem?_cons_zero, Option.some.injEq] at hk
        have hmem : PlanStep.executed e r ∈ rt.steps := List.getElem?_mem hi
        rw [← hk] at hmem
        exact absurd hr
          (runPlan_none_no_confirm C.run_experiment (plannedExperiments C issue) [] log hc e r
            (by simpa using hmem))
      | succ k2 =>
        have hk2 : ((debugLoop C orig m
            ⟨orig.description ++ "\n\n" ++
              summarize_lab_log (runPlan C.run_experiment (plannedExperiments C issue) [] log).lab_log⟩
            (runPlan C.run_experiment (plannedExperiments C issue) [] log).lab_log
            (summarize_lab_log
              (runPlan C.run_experiment (plannedExperiments C issue) [] log).lab_log)).traces)[k2]? =
            some rt := by simpa using hk
        obtain ⟨h1, h2, h3⟩ := ih _ _ _ k2 rt i e r hk2 hi hr
        have hlen : k2 < (debugLoop C orig m
            ⟨orig.description ++ "\n\n" ++
              summarize_lab_log (runPlan C.run_experiment (plannedExperiments C issue) [] log).lab_log⟩
            (runPlan C.run_experiment (plannedExperiments C issue) [] log).lab_log
            (summarize_lab_log
              (runPlan C.run_experiment (plannedExperiments C issue) [] log).lab_log)).traces.length := by
          rcases List.getElem?_eq_some.mp hk2 with ⟨hlt, _⟩
          exact hlt
        refine ⟨h1, h2, ?_⟩
        simp only [List.length_cons]
        omega
    · rw [debugLoop_succ_confirm C orig issue m log s r0 hc] at hk ⊢
      cases k with
      | succ k2 => simp at hk
      | zero =>
        simp only [List.getElem?_cons_zero, Option.some.injEq] at hk
        obtain ⟨pre, e1, hsteps, htrue, hpre⟩ :=
          runPlan_confirm_shape C.run_experiment (plannedExperiments C issue) [] log r0 hc
        rw [← hk] at hi
        simp only [hsteps] at hi
        rcases Nat.lt_trichotomy i pre.length with hlt | heq | hgt
        · rw [List.getElem?_append_left hlt] at hi
          exact absurd hr (hpre e r (List.getElem?_mem hi))
        · rw [List.getElem?_append_right (Nat.le_of_eq heq.symm)] at hi
          rw [heq, Nat.sub_self] at hi
          simp only [List.getElem?_cons_zero, Option.some.injEq] at hi
          have hre : r = r0 := by
            have := hi
            injection this with h1 h2
            exact h2.symm
          refine ⟨by rw [hre], ?_, by simp⟩
          rw [← hk]
          simp only [hsteps, List.length_append, List.length_cons, List.length_nil]
          omega
        · rw [List.getElem?_append_right (Nat.le_of_lt hgt)] at hi
          have : i - pre.length ≥ 1 := by omega
          rcases Nat.exists_eq_add_of_le this with ⟨j, hj⟩
          rw [Nat.add_comm] at hj
          rw [hj] at hi
          simp at hi

/-- A run with positive fuel has a first round, and the issue it hands to
the theory generator is the issue the round was entered with. -/
theorem debugLoop_head_exists (C : Collaborators) (orig : Issue) (n : Nat)
    (issue : Issue) (log : List ExperimentResult) (s : String) (hn : 0 < n) :
    ∃ steps, ((debugLoop C orig n issue log s).traces)[0]? = some ⟨issue, steps⟩ := by
  cases n with
  | zero => omega
  | succ m =>
    rcases hc : (runPlan C.run_experiment (plannedExperiments C issue) [] log).confirmed
      with _ | r
    · rw [debugLoop_succ_none C orig issue m log s hc]
      exact ⟨(runPlan C.run_experiment (plannedExperiments C issue) [] log).steps, by simp⟩
    · rw [debugLoop_succ_confirm C orig issue m log s r hc]
      exact ⟨(runPlan C.run_experiment (plannedExperiments C issue) [] log).steps, by simp⟩

/-- C2: the claim that `roi_estimate` always evaluates to
`ODDS_FACTOR * theory.odds * estimate.odds - COST_FACTOR * cost` fails on the
code as written: models.py never imports `ODDS_FACTOR`/`COST_FACTOR` (they are
defined only in debugging.py), so evaluating the property on any estimate,
here the stub estimator's output for the stub experiment `"read the code"`,
raises `NameError` instead of returning a number. -/
theorem C2_roi_estimate_name_error :
    roiEstimateAsEvaluated (estimate_cost_and_odds_stub ⟨"read the code", ⟨"T", 1, issueX⟩⟩) =
      Except.error "NameError: name ODDS_FACTOR is not defined" :=
  rfl

/-- C8: the first roi evaluation of any run with a nonempty estimate list,
here for the stub experiment `"run it and see what happens"`, aborts with a
`NameError` (models.py does not import `ODDS_FACTOR`); `sorted` in
`choose_experiments_worth_running` evaluates this key, so the exception
escapes `debug_issue` as a bare exception, contradicting the
two-shapes-only claim. -/
theorem C8_roi_error_escapes :
    roiEstimateAsEvaluated
        (estimate_cost_and_odds_stub ⟨"run it and see what happens", ⟨"T", 1, issueX⟩⟩) =
      Except.error "NameError: name ODDS_FACTOR is not defined" :=
  rfl

/-- C3: `choose_experiments_worth_running` orders the estimates by roi
(ascending, a permutation of the input sorted by `roi_estimate ≤`), selects
all of them when there are fewer than 3, exactly the first 3 of the ordering
when there are at least 3 and all rois are negative, and the union of the
first 3 with every strictly-positive-roi entry when there are at least 3 and
some roi is positive. -/
theorem C3_selector_floor (estimates : List ExperimentEstimate) :
    List.Perm (sortByRoi estimates) estimates ∧
    List.Sorted (fun a b => a.roi_estimate ≤ b.roi_estimate) (sortByRoi estimates) ∧
    (estimates.length < 3 →
      choose_experiments_worth_running estimates =
        (sortByRoi estimates).map (fun e => e.experiment)) ∧
    (3 ≤ estimates.length → (∀ e ∈ estimates, e.roi_estimate < 0) →
      choose_experiments_worth_running estimates =
        ((sortByRoi estimates).take 3).map (fun e => e.experiment)) ∧
    (3 ≤ estimates.length → (∃ e ∈ estimates, 0 < e.roi_estimate) →
      choose_experiments_worth_running estimates =
        ((sortByRoi estimates).take 3 ++
          ((sortByRoi estimates).drop 3).filter (fun e => decide (0 < e.roi_estimate))).map
          (fun e => e.experiment)) := by
  refine ⟨sortByRoi_perm estimates, sortByRoi_sorted estimates, ?_, ?_, ?_⟩
  · intro hlen
    have hlen2 : (sortByRoi estimates).length ≤ 3 := by
      rw [sortByRoi_length]
      omega
    unfold choose_experiments_worth_running
    rw [selectLoop_zero, List.take_of_length_le hlen2, List.drop_eq_nil_of_le hlen2]
    simp
  · intro _ hneg
    unfold choose_experiments_worth_running
    rw [selectLoop_zero]
    have hfil : ((sortByRoi estimates).drop 3).filter (fun e => decide (0 < e.roi_estimate)) = [] := by
      refine List.filter_eq_nil_iff.mpr ?_
      intro a ha
      have hmem : a ∈ estimates :=
        (sortByRoi_perm estimates).mem_iff.mp (List.mem_of_mem_drop ha)
      simpa using not_lt.mpr (le_of_lt (hneg a hmem))
    rw [hfil]
    simp
  · intro _ _
    unfold choose_experiments_worth_running
    rw [selectLoop_zero]

unseal Rat.add Rat.mul Rat.sub Rat.inv in
/-- C3 witness: the four concrete estimates have rois 1, -1, -2, 1/2; the
sorted order is C, B, D, A and the selector returns all four: the floor C, B,
D and the positive-roi entry A. -/
theorem C3_selector_floor_witness :
    3 ≤ estListC3.length ∧
    choose_experiments_worth_running estListC3 =
      [estC.experiment, estB.experiment, estD.experiment, estA.experiment] := by
  refine ⟨by decide, ?_⟩
  have h := (C3_selector_floor estListC3).2.2.2.2 (by decide) ⟨estA, by decide, by decide⟩
  rw [h]
  decide

/-- C10: the selection is stable: for each roi value, the selected estimates
with that roi form a sublist of the input's estimates with that roi taken in
input order, so two selected estimates with equal roi appear in the output in
their original generation order; the output designs are these estimates'
experiments in the same order. -/
theorem C10_stable_ties (estimates : List ExperimentEstimate) (q : ℚ) :
    List.Sublist
      ((selectLoop 0 (sortByRoi estimates)).filter (fun e => decide (e.roi_estimate = q)))
      (estimates.filter (fun e => decide (e.roi_estimate = q))) ∧
    choose_experiments_worth_running estimates =
      (selectLoop 0 (sortByRoi estimates)).map (fun e => e.experiment) := by
  constructor
  · have h1 : List.Sublist (selectLoop 0 (sortByRoi estimates)) (sortByRoi estimates) :=
      selectLoop_sublist _ 0
    have h2 := h1.filter (fun e => decide (e.roi_estimate = q))
    rwa [sortByRoi_filter_roi] at h2
  · rfl

/-- C7: within a single round (a plan walk entered with the empty falsified
set of debugging.py line 41): a key is in the final falsified set exactly
when an executed experiment of that key returned `False` (an inconclusive
`None` never falsifies); a refutation blocks every later execution of the
same key in the round; a step is skipped only after an earlier refutation of
its key; and the lab log gains exactly the executed, non-confirming results
(skipped experiments are neither executed nor logged). -/
theorem C7_round_falsification (run : ExperimentDesign → ExperimentResult)
    (plan : List ExperimentDesign) (log : List ExperimentResult) :
    (∀ d : String, d ∈ (runPlan run plan [] log).falsified ↔
      ∃ (e : ExperimentDesign) (r : ExperimentResult),
        PlanStep.executed e r ∈ (runPlan run plan [] log).steps ∧
        e.theory.key = d ∧ r.is_theory_correct = some false) ∧
    (∀ (i j : Nat) (e e2 : ExperimentDesign) (r r2 : ExperimentResult), i < j →
      ((runPlan run plan [] log).steps)[i]? = some (PlanStep.executed e r) →
      r.is_theory_correct = some false →
      ((runPlan run plan [] log).steps)[j]? = some (PlanStep.executed e2 r2) →
      e2.theory.key ≠ e.theory.key) ∧
    (∀ (j : Nat) (e : ExperimentDesign),
      ((runPlan run plan [] log).steps)[j]? = some (PlanStep.skipped e) →
      ∃ i, i < j ∧ ∃ (e2 : ExperimentDesign) (r2 : ExperimentResult),
        ((runPlan run plan [] log).steps)[i]? = some (PlanStep.executed e2 r2) ∧
        e2.theory.key = e.theory.key ∧ r2.is_theory_correct = some false) ∧
    (runPlan run plan [] log).lab_log = log ++ loggedResults (runPlan run plan [] log).steps := by
  refine ⟨?_, ?_, ?_, runPlan_lab_log_eq run plan [] log⟩
  · intro d
    constructor
    · intro hd
      rw [runPlan_falsified_eq] at hd
      simp only [List.append_nil, List.mem_reverse] at hd
      simp only [refutedKeys, List.mem_filterMap] at hd
      obtain ⟨s, hs, hsome⟩ := hd
      cases s with
      | skipped e => simp at hsome
      | executed e r =>
        by_cases hf : r.is_theory_correct = some false
        · simp [hf] at hsome
          exact ⟨e, r, hs, hsome, hf⟩
        · simp [hf] at hsome
    · rintro ⟨e, r, hmem, hk, hf⟩
      rw [runPlan_falsified_eq]
      simp only [List.append_nil, List.mem_reverse]
      simp only [refutedKeys, List.mem_filterMap]
      exact ⟨PlanStep.executed e r, hmem, by simp [hf, hk]⟩
  · intro i j e e2 r r2 hij hi hrf hj
    exact runPlan_refute_blocks_later run plan [] log i j e e2 r r2 hij hi hrf hj
  · intro j e hj
    rcases runPlan_skipped_char run plan [] log j e hj with h | h
    · simp at h
    · exact h

/-- C7 witness: on the two-experiment plan over the single theory key `"A"`
with an always-refuting runner, the key ends up falsified (via the first,
executed experiment) and the lab log is exactly the logged results of the
steps. -/
theorem C7_round_falsification_witness :
    "A" ∈ (runPlan runFalse planA [] []).falsified ∧
    (runPlan runFalse planA [] []).lab_log = loggedResults (runPlan runFalse planA [] []).steps := by
  obtain ⟨h1, h2, h3, h4⟩ := C7_round_falsification runFalse planA []
  refine ⟨?_, ?_⟩
  · exact (h1 "A").mpr ⟨designA1, runFalse designA1, by decide, rfl, rfl⟩
  · simpa using h4

unseal Rat.add Rat.mul Rat.sub Rat.inv in
/-- C1 counterexample: with `stubCollab` (same theory key `"T"` re-proposed
every round, runner always refuting), round 0 executes an experiment of key
`"T"` that refutes it, yet round 1 again executes (rather than skips) an
experiment of key `"T"`: falsification does not persist into later rounds,
because debugging.py line 41 re-creates the falsified set inside the round
loop. -/
theorem C1_counterexample :
    ((debug_issue_trace stubCollab issueX).map execKeyed)[0]? = some [("T", some false)] ∧
    ((debug_issue_trace stubCollab issueX).map execKeyed)[1]? = some [("T", some false)] :=
  ⟨by decide, by decide⟩

/-- C1 amended: once a theory with key `d` is refuted by an executed
experiment at step `i` of round `k`, no experiment of a theory with key `d`
executes later in the same round `k`; the falsified set is re-created empty
at the start of each round, so the same key may execute again in later
rounds (see the counterexample). -/
theorem C1_falsification_within_round (C : Collaborators) (issue : Issue)
    (k : Nat) (rt : RoundTrace)
    (hk : (debug_issue_trace C issue)[k]? = some rt)
    (i j : Nat) (e e2 : ExperimentDesign) (r r2 : ExperimentResult)
    (hij : i < j)
    (hi : rt.steps[i]? = some (PlanStep.executed e r))
    (hr : r.is_theory_correct = some false)
    (hj : rt.steps[j]? = some (PlanStep.executed e2 r2)) :
    e2.theory.key ≠ e.theory.key := by
  obtain ⟨log2, hsteps⟩ := debugLoop_steps_runPlan C issue DEBUG_ROUNDS issue [] "" k rt hk
  rw [hsteps] at hi hj
  exact runPlan_refute_blocks_later C.run_experiment (plannedExperiments C rt.issue) [] log2
    i j e e2 r r2 hij hi hr hj

unseal Rat.add Rat.mul Rat.sub Rat.inv in
/-- C1 amended witness: in round 0 of `twoTheoryCollab`, the experiment at
step 0 refutes key `"T1"` and the experiment at step 1 executes; the theorem
yields that its key differs from `"T1"`. -/
theorem C1_falsification_within_round_witness :
    (debug_issue_trace twoTheoryCollab issueX)[0]? = some rt0TT ∧
    rt0TT.steps[0]? = some (PlanStep.executed designT1 resultT1) ∧
    rt0TT.steps[1]? = some (PlanStep.executed designT2 resultT2) ∧
    designT2.theory.key ≠ designT1.theory.key := by
  refine ⟨by decide, by decide, by decide, ?_⟩
  exact C1_falsification_within_round twoTheoryCollab issueX 0 rt0TT (by decide)
    0 1 designT1 designT2 resultT1 resultT2 (by decide) (by decide) (by decide) (by decide)

/-- C4: if any executed experiment of any round returns a confirming result,
`debug_issue` returns exactly that result, the confirming step is the last
step of its round, and its round is the last round of the trace (no further
experiment of the round executes and no later round starts). -/
theorem C4_success_short_circuit (C : Collaborators) (issue : Issue)
    (k : Nat) (rt : RoundTrace) (i : Nat) (e : ExperimentDesign) (r : ExperimentResult)
    (hk : (debug_issue_trace C issue)[k]? = some rt)
    (hi : rt.steps[i]? = some (PlanStep.executed e r))
    (hr : r.is_theory_correct = some true) :
    debug_issue C issue = Sum.inl r ∧
    i = rt.steps.length - 1 ∧
    k = (debug_issue_trace C issue).length - 1 :=
  debugLoop_confirm_shape C issue DEBUG_ROUNDS issue [] "" k rt i e r hk hi hr

unseal Rat.add Rat.mul Rat.sub Rat.inv in
/-- C4 witness: `confirmCollab` confirms on the very first experiment; the
run returns that result and the trace has a single one-step round. -/
theorem C4_success_short_circuit_witness :
    (debug_issue_trace confirmCollab issueX)[0]? = some rt0C ∧
    (debug_issue confirmCollab issueX = Sum.inl resultTC ∧
      0 = rt0C.steps.length - 1 ∧
      0 = (debug_issue_trace confirmCollab issueX).length - 1) := by
  refine ⟨by decide, ?_⟩
  exact C4_success_short_circuit confirmCollab issueX 0 rt0C 0 designTC resultTC
    (by decide) (by decide) (by decide)

/-- C5: with collaborators that never confirm and never return an empty
theory list, `debug_issue` performs exactly `DEBUG_ROUNDS = 5` rounds and
returns a `Failure` whose lab log length is the total number of executed,
non-confirming experiments summed across all rounds. -/
theorem C5_round_budget (C : Collaborators) (issue : Issue)
    (hrun : ∀ e, (C.run_experiment e).is_theory_correct ≠ some true)
    (_hgen : ∀ i, C.brainstorm_theories i ≠ []) :
    DEBUG_ROUNDS = 5 ∧
    (debug_issue_trace C issue).length = DEBUG_ROUNDS ∧
    ∃ fl : Failure, debug_issue C issue = Sum.inr fl ∧
      fl.lab_log.length =
        ((debug_issue_trace C issue).map (fun rt => (loggedResults rt.steps).length)).sum := by
  obtain ⟨fl, h1, h2, h3⟩ := debugLoop_never_confirm C issue hrun DEBUG_ROUNDS issue [] ""
  refine ⟨rfl, h2, fl, h1, ?_⟩
  rw [h3]
  simp only [List.nil_append, List.length_flatten, List.map_map]
  rfl

/-- C5 witness: `stubCollab` never confirms and always proposes one theory;
its run does 5 rounds, fails, and logs one result per round. -/
theorem C5_round_budget_witness :
    DEBUG_ROUNDS = 5 ∧
    (debug_issue_trace stubCollab issueX).length = DEBUG_ROUNDS ∧
    ∃ fl : Failure, debug_issue stubCollab issueX = Sum.inr fl ∧
      fl.lab_log.length =
        ((debug_issue_trace stubCollab issueX).map (fun rt => (loggedResults rt.steps).length)).sum := by
  refine C5_round_budget stubCollab issueX ?_ ?_
  · intro e
    simp [stubCollab]
  · intro i
    simp [stubCollab]

/-- C6: for every round `k` that completes without a confirming result, the
issue handed to the theory generator in round `k + 1` is the original
description, a blank line, and the blank-line-joined summaries of the lab log
accumulated through round `k`, in log order. -/
theorem C6_issue_carryover (C : Collaborators) (original : Issue)
    (k : Nat) (rt : RoundTrace)
    (h : (debug_issue_trace C original)[k + 1]? = some rt) :
    rt.issue.description = original.description ++ "\n\n" ++
      summarize_lab_log (logThrough (debug_issue_trace C original) k) := by
  have h2 := debugLoop_issue_desc C original DEBUG_ROUNDS original [] "" k rt h
  simpa [logThrough, debug_issue_trace] using h2

unseal Rat.add Rat.mul Rat.sub Rat.inv in
/-- C6 witness: round 1 of `stubCollab` receives the issue `"bug\n\nno"`,
which is the original description plus the blank-line-joined summary of the
single round-0 result. -/
theorem C6_issue_carryover_witness :
    (debug_issue_trace stubCollab issueX)[1]? = some rt1X ∧
    rt1X.issue.description = issueX.description ++ "\n\n" ++
      summarize_lab_log (logThrough (debug_issue_trace stubCollab issueX) 0) := by
  have h : (debug_issue_trace stubCollab issueX)[1]? = some rt1X := by decide
  exact ⟨h, C6_issue_carryover stubCollab issueX 0 rt1X h⟩

/-- C9: when the theory generator returns no theories for the first round,
that round plans and executes nothing and contributes an empty partial log,
and round 2 starts with an issue whose description is the original plus a
blank line and the empty summary. -/
theorem C9_zero_theories (C : Collaborators) (issue : Issue)
    (h : C.brainstorm_theories issue = []) :
    (debug_issue_trace C issue)[0]? = some ⟨issue, []⟩ ∧
    logThrough (debug_issue_trace C issue) 0 = [] ∧
    ∃ steps2, (debug_issue_trace C issue)[1]? =
      some ⟨⟨issue.description ++ "\n\n"⟩, steps2⟩ := by
  have hplan : plannedExperiments C issue = [] := by
    unfold plannedExperiments roundEstimates
    rw [h]
    rfl
  have hnone : (runPlan C.run_experiment (plannedExperiments C issue) [] []).confirmed = none := by
    rw [hplan]
    rfl
  have hsteps : (runPlan C.run_experiment (plannedExperiments C issue) [] []).steps = [] := by
    rw [hplan]
    rfl
  have hlog : (runPlan C.run_experiment (plannedExperiments C issue) [] []).lab_log = [] := by
    rw [hplan]
    rfl
  have hexp : debug_issue_trace C issue =
      ⟨issue, []⟩ ::
        (debugLoop C issue 4 ⟨issue.description ++ "\n\n"⟩ [] "").traces := by
    show (debugLoop C issue DEBUG_ROUNDS issue [] "").traces = _
    rw [show DEBUG_ROUNDS = 4 + 1 from rfl,
      debugLoop_succ_none C issue issue 4 [] "" hnone, hsteps, hlog]
    show _ :: _ = _
    rw [show summarize_lab_log [] = "" from rfl]
    rw [String.append_empty]
  refine ⟨?_, ?_, ?_⟩
  · rw [hexp]
    simp
  · rw [hexp]
    simp [logThrough, loggedResults]
  · obtain ⟨steps2, hs2⟩ :=
      debugLoop_head_exists C issue 4 ⟨issue.description ++ "\n\n"⟩ [] "" (by omega)
    refine ⟨steps2, ?_⟩
    rw [hexp]
    simpa using hs2

/-- C9 witness: `emptyGenCollab` generates no theories; round 0 is empty and
round 1 receives `"bug\n\n"`. -/
theorem C9_zero_theories_witness :
    (debug_issue_trace emptyGenCollab issueX)[0]? = some ⟨issueX, []⟩ ∧
    logThrough (debug_issue_trace emptyGenCollab issueX) 0 = [] ∧
    ∃ steps2, (debug_issue_trace emptyGenCollab issueX)[1]? =
      some ⟨⟨issueX.description ++ "\n\n"⟩, steps2⟩ :=
  C9_zero_theories emptyGenCollab issueX rfl

end ZeroZeroCode
